import Mathlib

/-!
Shallow embedding of `packages/@headlessui-vue/src/components/radio-group/radio-group.ts`.

JS values that may be `undefined` are embedded as `Option V` (with `none` for
`undefined`); DOM elements are identified by natural numbers; DOM document order
of the option elements is given by a list of element ids; the outbound
`update:modelValue` emission channel is embedded as the list of emitted values.
-/

namespace RadioGroup

/-- Embeds the source's `Option` record (`interface Option` with fields `id`,
`element`, `propsRef`): `oid` is the generated option id string, `element` the
option's DOM element (`none` before mount), `value` the option's current
`props.value` (`none` for `undefined`). -/
structure RGOption (V : Type) where
  oid : String
  element : Option Nat
  value : Option V
deriving DecidableEq, Repr

/-- Embeds `change(nextValue)` of the `api` object: returns the list of values
emitted on `update:modelValue` together with the (unchanged) bound value.
Source: `if (props.disabled) return; if (value.value === nextValue) return;
emit('update:modelValue', nextValue)`. -/
def change {V : Type} [DecidableEq V] (disabled : Bool) (value : Option V)
    (nextValue : Option V) : List (Option V) × Option V :=
  if disabled then ([], value)
  else if value = nextValue then ([], value)
  else ([nextValue], value)

/-- Embeds the `orderMap` rank of an option id: the index of the id in the
document-ordered list produced by
`querySelectorAll('[id^="headlessui-radiogroup-option-"]')`. -/
def rank (domOrder : List String) (id : String) : Nat :=
  domOrder.indexOf id

/-- The mutation body of `registerOption` once the container is mounted:
`options.value.push(action); options.value.sort((a, z) => orderMap[a.id] -
orderMap[z.id])`. JS `Array.prototype.sort` is a stable sort by the
comparator, embedded as a stable merge sort by rank. -/
def sortStep {V : Type} (domOrder : List String) (opts : List (RGOption V))
    (action : RGOption V) : List (RGOption V) :=
  (opts ++ [action]).mergeSort fun a z => rank domOrder a.oid ≤ rank domOrder z.oid

/-- Embeds `registerOption(action)`. The container reference is `none` when the
group element is not mounted; in that case
`Array.from(radioGroupRef.value?.querySelectorAll(...)!)` evaluates
`Array.from(undefined)`, which throws a `TypeError` before the `push`, so the
options list is not modified. -/
def registerOption {V : Type} (container : Option (List String))
    (opts : List (RGOption V)) (action : RGOption V) :
    Except String (List (RGOption V)) :=
  match container with
  | none => .error "TypeError: undefined is not iterable"
  | some domOrder => .ok (sortStep domOrder opts action)

/-- The options list that results from a `registerOption` call: on a thrown
`TypeError` the list is left as it was. -/
def applyRegister {V : Type} (container : Option (List String))
    (opts : List (RGOption V)) (action : RGOption V) : List (RGOption V) :=
  match registerOption container opts action with
  | .ok l => l
  | .error _ => opts

/-- Embeds `unregisterOption(id)`: `let idx = options.value.findIndex(radio =>
radio.id === id); if (idx === -1) return; options.value.splice(idx, 1)`. -/
def unregisterOption {V : Type} (opts : List (RGOption V)) (id : String) :
    List (RGOption V) :=
  match opts.findIdx? (fun radio => radio.oid = id) with
  | none => opts
  | some idx => opts.eraseIdx idx

/-- Embeds `useRadioGroupContext(component)`: `inject` yields `none` when no
enclosing `RadioGroup` provided the context; then an `Error` naming the
component is thrown, otherwise the context is returned. -/
def useRadioGroupContext {Ctx : Type} (component : String)
    (context : Option Ctx) : Except String Ctx :=
  match context with
  | none => .error ("<" ++ component ++ " /> is missing a parent <RadioGroup /> component.")
  | some ctx => .ok ctx

/-- Embeds `firstRadio = api.options.value?.[0]?.id === this.id` of
`RadioGroupOption.render`. -/
def firstRadio {V : Type} (opts : List (RGOption V)) (oid : String) : Bool :=
  match opts.head? with
  | none => false
  | some o => o.oid = oid

/-- Embeds the `tabIndex` computation of `RadioGroupOption.render`:
`checked ? 0 : api.value.value === undefined && firstRadio ? 0 : -1` with
`checked = api.value.value === value`. -/
def tabIndex {V : Type} [DecidableEq V] (selectedValue : Option V)
    (opts : List (RGOption V)) (opt : RGOption V) : Int :=
  if selectedValue = opt.value then 0
  else if selectedValue = none ∧ firstRadio opts opt.oid then 0
  else -1

/-- Number of options of the group rendered with `tabIndex` 0, i.e. reachable
by sequential Tab navigation. -/
def tabReachableCount {V : Type} [DecidableEq V] (selectedValue : Option V)
    (opts : List (RGOption V)) : Nat :=
  opts.countP fun o => tabIndex selectedValue opts o = 0

/-- Bit flags of `enum OptionState`: `Empty = 1 << 0`, `Active = 1 << 1`. -/
def OptionStateEmpty : Nat := 1
/-- Bit flag `Active = 1 << 1` of `enum OptionState`. -/
def OptionStateActive : Nat := 2

/-- Result of a `handleClick` call on an option: the option's local bitmask
state, the values passed to `api.change` (change requests), and the element
holding input focus afterwards. -/
structure ClickResult (V : Type) where
  state : Nat
  changeRequests : List (Option V)
  activeElement : Option Nat
deriving DecidableEq, Repr

/-- Embeds `handleClick` of `RadioGroupOption`: `let value = props.value;
if (api.value.value === value) return; state.value |= OptionState.Active;
api.change(value); optionRef.value?.focus()`. -/
def handleClick {V : Type} [DecidableEq V] (selectedValue : Option V)
    (value : Option V) (state : Nat) (element : Option Nat)
    (active : Option Nat) : ClickResult V :=
  if selectedValue = value then ⟨state, [], active⟩
  else
    ⟨state ||| OptionStateActive, [value],
      match element with
      | some e => some e
      | none => active⟩

/-- The values actually emitted on `update:modelValue` by a `handleClick` call:
each change request is filtered through the group's `change` guards. -/
def clickEmitted {V : Type} [DecidableEq V] (disabled : Bool)
    (selectedValue : Option V) (value : Option V) (state : Nat)
    (element : Option Nat) (active : Option Nat) : List (Option V) :=
  (handleClick selectedValue value state element active).changeRequests.flatMap
    fun v => (change disabled selectedValue v).fst

/-- A DOM element as seen by the role-normalization `watchEffect`: its `role`
attribute (`none` when absent) and its child elements in document order. -/
inductive DomNode where
  | node (role : Option String) (children : List DomNode)

/-- The `role` attribute of a node. -/
def DomNode.role : DomNode → Option String
  | .node r _ => r

/-- The child elements of a node. -/
def DomNode.children : DomNode → List DomNode
  | .node _ cs => cs

mutual
/-- Embeds the `createTreeWalker` pass of the `watchEffect` on one descendant:
`role === 'radio'` gives `FILTER_REJECT` (node and subtree untouched), any
other present `role` gives `FILTER_SKIP` (node untouched, children still
walked), an absent `role` gives `FILTER_ACCEPT` (the walker sets
`role="none"` and continues into the children). -/
def walk : DomNode → DomNode
  | .node (some r) cs =>
    if r = "radio" then .node (some r) cs else .node (some r) (walkList cs)
  | .node none cs => .node (some "none") (walkList cs)

/-- `walk` applied to a sibling list in document order. -/
def walkList : List DomNode → List DomNode
  | [] => []
  | n :: ns => walk n :: walkList ns
end

/-- The whole `watchEffect` pass: the tree walker is rooted at the group
container, whose own node is never returned by `nextNode()`, so only the
container's children (and their subtrees) are visited. -/
def normalizeContainer (children : List DomNode) : List DomNode :=
  walkList children

/-- The keys the `keydown` handler distinguishes. -/
inductive Key where
  | arrowLeft | arrowUp | arrowRight | arrowDown | space | other
deriving DecidableEq, Repr

/-- State read by the window `keydown` handler: the registered options, the
element holding input focus (`document.activeElement`, `none` when focus is on
no modelled element), which element ids are focusable, whether the container
element is mounted (`radioGroupRef.value` non-null) and whether the event
target lies inside the container. -/
structure KeyState (V : Type) where
  options : List (RGOption V)
  activeElement : Option Nat
  focusableIds : List Nat
  containerMounted : Bool
  targetInside : Bool

/-- Result of one `keydown` dispatch: the element holding input focus
afterwards, the values passed to `api.change` (change requests), and whether
`preventDefault` / `stopPropagation` were called. -/
structure KeyResult (V : Type) where
  activeElement : Option Nat
  changeRequests : List (Option V)
  defaultPrevented : Bool
  propagationStopped : Bool
deriving Repr

/-- An element entry is an eligible focus candidate when it is mounted and
focusable. -/
def eligible (focusableIds : List Nat) : Option Nat → Bool
  | some e => focusableIds.contains e
  | none => false

/-- Index the scan starts from: the index of the currently focused element in
the element list, or a sentinel start (so that a backward scan begins at the
last entry and a forward scan at the first) when focus is not on a listed
element. -/
def scanStart (elements : List (Option Nat)) (backward : Bool)
    (active : Option Nat) : Nat :=
  match active.bind fun a => elements.findIdx? (fun e => e == some a) with
  | some i => i
  | none => if backward then 0 else elements.length - 1

/-- Modelled from the spec: the `focusIn` utility of
`utils/focus-management.ts` is not under `src/`, so its behaviour for
`Focus.Previous | Focus.WrapAround` and `Focus.Next | Focus.WrapAround` is
taken from the spec's words: scan the ordered, focusable option list backward
(resp. forward) from the currently focused entry, wrapping from the first to
the last (resp. last to first); move focus to the first eligible candidate
found; on success the result is the newly focused element, otherwise `none`
and focus does not move. -/
def focusIn (elements : List (Option Nat)) (focusableIds : List Nat)
    (backward : Bool) (active : Option Nat) : Option Nat :=
  let n := elements.length
  let idx := scanStart elements backward active
  let order := (List.range n).map fun k =>
    if backward then (idx + n - (k + 1)) % n else (idx + (k + 1)) % n
  (order.find? fun i => eligible focusableIds (elements.getD i none)).bind
    fun i => elements.getD i none

/-- Embeds `options.value.find(option => option.element ===
document.activeElement)`. -/
def findActiveOption {V : Type} (options : List (RGOption V))
    (active : Option Nat) : Option (RGOption V) :=
  match active with
  | none => none
  | some a => options.find? fun o => o.element == some a

/-- The shared body of the `ArrowLeft`/`ArrowUp` and `ArrowRight`/`ArrowDown`
cases of the `keydown` handler: `preventDefault`, `stopPropagation`, run
`focusIn` over the option elements, and on `FocusResult.Success` request
`change` with the value of the option whose element now holds focus. -/
def arrowResult {V : Type} (st : KeyState V) (backward : Bool) : KeyResult V :=
  match focusIn (st.options.map RGOption.element) st.focusableIds backward
      st.activeElement with
  | some e =>
    { activeElement := some e
      changeRequests :=
        match findActiveOption st.options (some e) with
        | some o => [o.value]
        | none => []
      defaultPrevented := true
      propagationStopped := true }
  | none =>
    { activeElement := st.activeElement
      changeRequests := []
      defaultPrevented := true
      propagationStopped := true }

/-- Embeds the `useWindowEvent('keydown', ...)` handler: return untouched when
the container is unmounted or the event target is outside it, otherwise switch
on the key. -/
def handleKeydown {V : Type} (st : KeyState V) (key : Key) : KeyResult V :=
  if st.containerMounted = false ∨ st.targetInside = false then
    ⟨st.activeElement, [], false, false⟩
  else
    match key with
    | .arrowLeft => arrowResult st true
    | .arrowUp => arrowResult st true
    | .arrowRight => arrowResult st false
    | .arrowDown => arrowResult st false
    | .space =>
      ⟨st.activeElement,
        (match findActiveOption st.options st.activeElement with
         | some o => [o.value]
         | none => []),
        true, true⟩
    | .other => ⟨st.activeElement, [], false, false⟩

/-! ## Theorems -/

/-- C1: `change(v)` emits nothing when the group is disabled, emits nothing
when `v` equals the current `selectedValue`, otherwise emits exactly one
selection-changed request carrying `v`; it never itself writes
`selectedValue`. -/
theorem change_spec {V : Type} [DecidableEq V] (disabled : Bool)
    (value nextValue : Option V) :
    (disabled = true → (change disabled value nextValue).fst = []) ∧
    (value = nextValue → (change disabled value nextValue).fst = []) ∧
    (disabled = false → value ≠ nextValue →
      (change disabled value nextValue).fst = [nextValue]) ∧
    (change disabled value nextValue).snd = value := by
  refine ⟨fun h => ?_, fun h => ?_, fun hd hne => ?_, ?_⟩
  · simp [change, h]
  · cases disabled <;> simp [change, h]
  · simp [change, hd, hne]
  · cases disabled
    · simp only [change, Bool.false_eq_true, if_false]
      split <;> rfl
    · rfl

/-- Witness for `change_spec` at concrete inputs. -/
theorem change_spec_witness :
    (change true (some 1) (some 2) : List (Option Nat) × Option Nat).fst = [] ∧
    (change false (some 1) (some 1) : List (Option Nat) × Option Nat).fst = [] ∧
    (change false (some 1) (some 2) : List (Option Nat) × Option Nat).fst = [some 2] :=
  ⟨(change_spec true (some 1) (some 2)).1 rfl,
   (change_spec false (some 1) (some 1)).2.1 rfl,
   (change_spec false (some 1) (some 2)).2.2.1 rfl (by decide)⟩

/-- C8: accessing the group context from a component with no enclosing group
(injected context `none`) fails with an error whose message names the
offending component; with an enclosing group it returns the context. -/
theorem useRadioGroupContext_spec {Ctx : Type} (component : String) :
    (@useRadioGroupContext Ctx component none =
      .error ("<" ++ component ++ " /> is missing a parent <RadioGroup /> component.")) ∧
    (∃ pre post, @useRadioGroupContext Ctx component none =
      .error (pre ++ component ++ post)) ∧
    (∀ ctx : Ctx, useRadioGroupContext component (some ctx) = .ok ctx) :=
  ⟨rfl, ⟨"<", " /> is missing a parent <RadioGroup /> component.", rfl⟩, fun _ => rfl⟩

/-- C10: calling `registerOption` while the container reference is null throws
(`Array.from(undefined)` raises a `TypeError` before the `push`), and the
options list is unchanged by the failed call. -/
theorem registerOption_null_container {V : Type} [DecidableEq V]
    (opts : List (RGOption V)) (action : RGOption V) :
    (∃ msg, registerOption none opts action = .error msg) ∧
    applyRegister none opts action = opts :=
  ⟨⟨_, rfl⟩, rfl⟩

/-- C5: `handleClick` is a no-op when the option's value equals the current
`selectedValue`; otherwise it sets the Active bit of the option's local
state, requests `change` with the option's value, and moves input focus to
the option's element. -/
theorem handleClick_spec {V : Type} [DecidableEq V] (selectedValue value : Option V)
    (state : Nat) (element : Option Nat) (active : Option Nat) :
    (selectedValue = value →
      handleClick selectedValue value state element active = ⟨state, [], active⟩) ∧
    (selectedValue ≠ value →
      (handleClick selectedValue value state element active).state =
          state ||| OptionStateActive ∧
      ((handleClick selectedValue value state element active).state).testBit 1 = true ∧
      (handleClick selectedValue value state element active).changeRequests = [value] ∧
      (∀ e, element = some e →
        (handleClick selectedValue value state element active).activeElement = some e)) := by
  refine ⟨fun h => ?_, fun h => ⟨?_, ?_, ?_, fun e he => ?_⟩⟩
  · simp [handleClick, h]
  · simp [handleClick, h]
  · have hbit : Nat.testBit 2 1 = true := by decide
    simp [handleClick, h, OptionStateActive, Nat.testBit_or, hbit]
  · simp [handleClick, h]
  · simp [handleClick, h, he]

/-- Witness for `handleClick_spec` at concrete inputs. -/
theorem handleClick_spec_witness :
    handleClick (some 1) (some 1) 1 (some 5) none = (⟨1, [], none⟩ : ClickResult Nat) ∧
    (handleClick (some 1) (some 2) 1 (some 5) none : ClickResult Nat).changeRequests =
      [some 2] ∧
    (handleClick (some 1) (some 2) 1 (some 5) none : ClickResult Nat).activeElement =
      some 5 :=
  ⟨(handleClick_spec (some 1) (some 1) 1 (some 5) none).1 rfl,
   ((handleClick_spec (some 1) (some 2) 1 (some 5) none).2 (by decide)).2.2.1,
   ((handleClick_spec (some 1) (some 2) 1 (some 5) none).2 (by decide)).2.2.2 5 rfl⟩

/-- C9: with the group disabled and a value differing from `selectedValue`,
`handleClick` still sets the option's local state to Active and moves input
focus to the option's element, but the change request it issues is suppressed
by the disabled guard, so nothing is emitted. -/
theorem handleClick_disabled_spec {V : Type} [DecidableEq V]
    (selectedValue value : Option V) (state : Nat) (element : Option Nat)
    (active : Option Nat) (hne : selectedValue ≠ value) :
    (handleClick selectedValue value state element active).state =
        state ||| OptionStateActive ∧
    (handleClick selectedValue value state element active).changeRequests = [value] ∧
    (∀ e, element = some e →
      (handleClick selectedValue value state element active).activeElement = some e) ∧
    clickEmitted true selectedValue value state element active = [] := by
  refine ⟨?_, ?_, fun e he => ?_, ?_⟩
  · simp [handleClick, hne]
  · simp [handleClick, hne]
  · simp [handleClick, hne, he]
  · simp [clickEmitted, handleClick, hne, change]

/-- Witness for `handleClick_disabled_spec` at concrete inputs. -/
theorem handleClick_disabled_spec_witness :
    (handleClick (some 1) (some 2) 1 (some 5) none : ClickResult Nat).state = 1 ||| 2 ∧
    clickEmitted true (some 1) (some 2) 1 (some 5) none = ([] : List (Option Nat)) :=
  ⟨(handleClick_disabled_spec (some 1) (some 2) 1 (some 5) none (by decide)).1,
   (handleClick_disabled_spec (some 1) (some 2) 1 (some 5) none (by decide)).2.2.2⟩

/-- C7: `unregisterOption(id)` removes the registered option carrying `id`
when present (with unique ids it removes exactly the matching entry), leaves
the list unchanged when no option has that id, and a second call for the same
id is a no-op; it is a total function, so no error is raised. -/
theorem unregisterOption_spec {V : Type} [DecidableEq V]
    (opts : List (RGOption V)) (id : String) :
    ((∀ o ∈ opts, o.oid ≠ id) → unregisterOption opts id = opts) ∧
    ((opts.map RGOption.oid).Nodup →
      unregisterOption opts id = opts.filter fun o => o.oid ≠ id) ∧
    ((opts.map RGOption.oid).Nodup →
      unregisterOption (unregisterOption opts id) id = unregisterOption opts id) := by
  have habsent : ∀ (l : List (RGOption V)), (∀ o ∈ l, o.oid ≠ id) →
      unregisterOption l id = l := by
    intro l hl
    unfold unregisterOption
    have : l.findIdx? (fun radio => radio.oid = id) = none :=
      List.findIdx?_eq_none_iff.mpr fun x hx => by
        simp [hl x hx]
    rw [this]
  have hfilter : ∀ (l : List (RGOption V)), (l.map RGOption.oid).Nodup →
      unregisterOption l id = l.filter fun o => o.oid ≠ id := by
    intro l
    induction l with
    | nil => intro _; rfl
    | cons o rest ih =>
      intro hnd
      rw [List.map_cons, List.nodup_cons] at hnd
      by_cases h : o.oid = id
      · have hrest : ∀ x ∈ rest, x.oid ≠ id := by
          intro x hx hxid
          apply hnd.1
          have hmem : x.oid ∈ rest.map RGOption.oid :=
            List.mem_map_of_mem RGOption.oid hx
          rwa [hxid, ← h] at hmem
        have hfeq : List.filter (fun a => !decide (a.oid = id)) rest = rest :=
          List.filter_eq_self.mpr fun a ha => by simp [hrest a ha]
        unfold unregisterOption
        rw [List.findIdx?_cons]
        simp [h, List.filter_cons, hfeq]
      · have step : unregisterOption (o :: rest) id =
            match rest.findIdx? (fun radio => radio.oid = id) with
            | none => o :: rest
            | some idx => o :: rest.eraseIdx idx := by
          unfold unregisterOption
          rw [List.findIdx?_cons]
          simp only [h, decide_False, if_false, List.findIdx?_succ]
          cases rest.findIdx? (fun radio => radio.oid = id) with
          | none => rfl
          | some idx => simp [List.eraseIdx_cons_succ]
        have hrest := ih hnd.2
        unfold unregisterOption at hrest
        cases hfi : rest.findIdx? (fun radio => radio.oid = id) with
        | none =>
          rw [hfi] at hrest
          rw [step, hfi]
          simp only [List.filter_cons]
          simp [h]
          simpa using hrest
        | some idx =>
          rw [hfi] at hrest
          rw [step, hfi]
          simp only [List.filter_cons]
          simp [h]
          simpa using hrest
  refine ⟨habsent opts, hfilter opts, fun hnd => ?_⟩
  rw [hfilter opts hnd]
  exact habsent _ fun o ho => by
    have := List.of_mem_filter ho
    simpa using this

/-- Witness for `unregisterOption_spec` at concrete inputs. -/
theorem unregisterOption_spec_witness :
    unregisterOption [(⟨"a", some 1, some 10⟩ : RGOption Nat)] "b" =
      [⟨"a", some 1, some 10⟩] ∧
    unregisterOption [(⟨"a", some 1, some 10⟩ : RGOption Nat),
        ⟨"b", some 2, some 20⟩] "b" = [⟨"a", some 1, some 10⟩] ∧
    unregisterOption (unregisterOption [(⟨"a", some 1, some 10⟩ : RGOption Nat),
        ⟨"b", some 2, some 20⟩] "b") "b" =
      unregisterOption [(⟨"a", some 1, some 10⟩ : RGOption Nat),
        ⟨"b", some 2, some 20⟩] "b" :=
  ⟨(unregisterOption_spec [⟨"a", some 1, some 10⟩] "b").1 (by decide),
   by
    have := (unregisterOption_spec [(⟨"a", some 1, some 10⟩ : RGOption Nat),
      ⟨"b", some 2, some 20⟩] "b").2.1 (by decide)
    rw [this]; rfl,
   (unregisterOption_spec [(⟨"a", some 1, some 10⟩ : RGOption Nat),
      ⟨"b", some 2, some 20⟩] "b").2.2 (by decide)⟩

/-- A counting helper: a list with no duplicates in which exactly one element
satisfies the predicate has `countP` one. -/
theorem countP_eq_one_of_unique {α : Type} (p : α → Bool) (l : List α) (a : α)
    (hnd : l.Nodup) (hmem : a ∈ l) (hpa : p a = true)
    (huniq : ∀ b ∈ l, p b = true → b = a) : l.countP p = 1 := by
  induction l with
  | nil => cases hmem
  | cons x xs ih =>
    rw [List.nodup_cons] at hnd
    rw [List.countP_cons]
    rcases List.mem_cons.mp hmem with h | h
    · subst h
      rw [if_pos hpa]
      have hxs : xs.countP p = 0 := List.countP_eq_zero.mpr fun b hb hpb =>
        hnd.1 ((huniq b (List.mem_cons_of_mem _ hb) hpb) ▸ hb)
      rw [hxs]
    · have hpx : p x = false := by
        by_contra hx
        rw [Bool.not_eq_false] at hx
        exact hnd.1 ((huniq x (List.mem_cons_self x xs) hx) ▸ h)
      rw [hpx]
      simp only [Bool.false_eq_true, if_false, Nat.add_zero]
      exact ih hnd.2 h fun b hb hpb => huniq b (List.mem_cons_of_mem _ hb) hpb

/-- C4 counterexample: with two options of values 10 and 20 and the bound
value 30 (selected but matching no option), no option at all gets `tabIndex`
0, so it is not the case that exactly one option is Tab-reachable in every
reachable state. -/
theorem tabReachable_counterexample :
    tabReachableCount (some 30)
        [(⟨"o1", some 1, some 10⟩ : RGOption Nat), ⟨"o2", some 2, some 20⟩] = 0 ∧
    tabReachableCount (some 30)
        [(⟨"o1", some 1, some 10⟩ : RGOption Nat), ⟨"o2", some 2, some 20⟩] ≠ 1 := by
  constructor
  · decide
  · decide

/-- C4 amended: with pairwise distinct option ids, (a) when nothing is
selected and no option's value is `undefined`, exactly the first option gets
`tabIndex` 0; (b) when exactly one option's value equals the defined
`selectedValue`, exactly that (checked) option gets `tabIndex` 0; (c) when
the defined `selectedValue` matches no option's value, no option is
Tab-reachable. -/
theorem tabIndex_amended {V : Type} [DecidableEq V] (opts : List (RGOption V))
    (hnd : (opts.map RGOption.oid).Nodup) :
    (∀ o0 rest, opts = o0 :: rest → (∀ o ∈ opts, o.value ≠ none) →
      tabReachableCount none opts = 1 ∧ tabIndex none opts o0 = 0) ∧
    (∀ (v : V) o0, o0 ∈ opts → o0.value = some v →
      (∀ o ∈ opts, o.value = some v → o = o0) →
      tabReachableCount (some v) opts = 1 ∧ tabIndex (some v) opts o0 = 0) ∧
    (∀ (v : V), (∀ o ∈ opts, o.value ≠ some v) →
      tabReachableCount (some v) opts = 0) := by
  have hinj := List.inj_on_of_nodup_map hnd
  have hndl : opts.Nodup := List.Nodup.of_map RGOption.oid hnd
  refine ⟨fun o0 rest heq hv => ?_, fun v o0 hmem hval huniq => ?_, fun v hno => ?_⟩
  · have hfirst : tabIndex none opts o0 = 0 := by
      have hv0 : o0.value ≠ none := hv o0 (heq ▸ List.mem_cons_self o0 rest)
      unfold tabIndex
      rw [if_neg fun hc => hv0 hc.symm, if_pos ⟨rfl, by simp [heq, firstRadio]⟩]
    refine ⟨?_, hfirst⟩
    apply countP_eq_one_of_unique _ _ o0 hndl (heq ▸ List.mem_cons_self o0 rest)
      (by simp [hfirst])
    intro b hb hpb
    have hbv : b.value ≠ none := hv b hb
    have h0 : tabIndex none opts b = 0 := by simpa using hpb
    unfold tabIndex at h0
    rw [if_neg fun hc => hbv hc.symm] at h0
    by_cases hc : (none : Option V) = none ∧ firstRadio opts b.oid
    · have : o0.oid = b.oid := by
        have := hc.2
        simpa [heq, firstRadio] using this
      exact (hinj hb (heq ▸ List.mem_cons_self o0 rest) this.symm)
    · rw [if_neg hc] at h0
      exact absurd h0 (by decide)
  · have hsel : tabIndex (some v) opts o0 = 0 := by
      unfold tabIndex
      rw [if_pos hval.symm]
    refine ⟨?_, hsel⟩
    apply countP_eq_one_of_unique _ _ o0 hndl hmem (by simp [hsel])
    intro b hb hpb
    have h0 : tabIndex (some v) opts b = 0 := by simpa using hpb
    unfold tabIndex at h0
    by_cases hc : (some v : Option V) = b.value
    · exact huniq b hb hc.symm
    · rw [if_neg hc, if_neg (fun hand => Option.some_ne_none v hand.1)] at h0
      exact absurd h0 (by decide)
  · apply List.countP_eq_zero.mpr
    intro b hb hpb
    have h0 : tabIndex (some v) opts b = 0 := by simpa using hpb
    unfold tabIndex at h0
    rw [if_neg (fun hc => hno b hb hc.symm),
      if_neg (fun hand => Option.some_ne_none v hand.1)] at h0
    exact absurd h0 (by decide)

/-- Witness for `tabIndex_amended` at concrete inputs. -/
theorem tabIndex_amended_witness :
    tabReachableCount (none : Option Nat)
        [(⟨"a", some 1, some 10⟩ : RGOption Nat), ⟨"b", some 2, some 20⟩] = 1 ∧
    tabReachableCount (some 20)
        [(⟨"a", some 1, some 10⟩ : RGOption Nat), ⟨"b", some 2, some 20⟩] = 1 ∧
    tabReachableCount (some 30)
        [(⟨"a", some 1, some 10⟩ : RGOption Nat), ⟨"b", some 2, some 20⟩] = 0 :=
  ⟨((tabIndex_amended [⟨"a", some 1, some 10⟩, ⟨"b", some 2, some 20⟩]
      (by decide)).1 ⟨"a", some 1, some 10⟩ [⟨"b", some 2, some 20⟩] rfl
      (by decide)).1,
   ((tabIndex_amended [⟨"a", some 1, some 10⟩, ⟨"b", some 2, some 20⟩]
      (by decide)).2.1 20 ⟨"b", some 2, some 20⟩ (by decide) rfl (by decide)).1,
   (tabIndex_amended [⟨"a", some 1, some 10⟩, ⟨"b", some 2, some 20⟩]
      (by decide)).2.2 30 (by decide)⟩

/-- C6 counterexample: a container child declaring the explicit role `group`
keeps its own role, but the walk still descends into its subtree and tags its
roleless child with role `none`, so the subtree is not left untouched as the
claim states. -/
theorem walk_counterexample :
    walk (.node (some "group") [.node none []]) =
      .node (some "group") [.node (some "none") []] ∧
    walk (.node (some "group") [.node none []]) ≠
      .node (some "group") [.node none []] := by
  constructor
  · simp [walk, walkList]
  · simp [walk, walkList]

/-- C6 amended: the walk leaves every explicit-role descendant itself
untouched; only option elements (role `radio`) additionally have their whole
subtree skipped — for any other explicit role the walk still descends into
the children; every visited descendant without an explicit role is tagged
with the neutral role `none` and its children are also walked; the container
node itself is not visited. -/
theorem walk_amended :
    (∀ cs, walk (.node (some "radio") cs) = .node (some "radio") cs) ∧
    (∀ r cs, r ≠ "radio" →
      walk (.node (some r) cs) = .node (some r) (walkList cs)) ∧
    (∀ cs, walk (.node none cs) = .node (some "none") (walkList cs)) ∧
    (∀ cs, normalizeContainer cs = walkList cs) := by
  refine ⟨fun cs => ?_, fun r cs hr => ?_, fun cs => ?_, fun cs => rfl⟩
  · simp [walk]
  · simp [walk, hr]
  · simp [walk]

/-- `applyRegister` on a mounted container is the push-and-sort body. -/
theorem applyRegister_some {V : Type} [DecidableEq V] (domOrder : List String)
    (opts : List (RGOption V)) (action : RGOption V) :
    applyRegister (some domOrder) opts action = sortStep domOrder opts action := rfl

/-- The push-and-sort body always leaves the options list sorted by the
document-order rank of the option ids. -/
theorem sortStep_sorted {V : Type} [DecidableEq V] (domOrder : List String)
    (opts : List (RGOption V)) (action : RGOption V) :
    (sortStep domOrder opts action).Pairwise
      (fun a z => rank domOrder a.oid ≤ rank domOrder z.oid) := by
  have h := @List.sorted_mergeSort (RGOption V)
    (fun a z => rank domOrder a.oid ≤ rank domOrder z.oid)
    (fun a b c hab hbc => by
      simp only [decide_eq_true_eq] at *
      exact le_trans hab hbc)
    (fun a b => by
      simp only [Bool.or_eq_true, decide_eq_true_eq]
      exact le_total _ _)
    (opts ++ [action])
  exact h.imp fun hab => by simpa using hab

/-- Folding `registerOption` calls over any action sequence yields a
permutation of the initial list and the actions: each call pushes exactly the
new ref and only reorders. -/
theorem foldl_applyRegister_perm {V : Type} [DecidableEq V] (domOrder : List String)
    (acts : List (RGOption V)) (init : List (RGOption V)) :
    (acts.foldl (applyRegister (some domOrder)) init).Perm (init ++ acts) := by
  induction acts generalizing init with
  | nil => simp
  | cons a as ih =>
    rw [List.foldl_cons]
    have h1 : (applyRegister (some domOrder) init a).Perm (init ++ [a]) := by
      rw [applyRegister_some]
      exact List.mergeSort_perm _ _
    have h2 := (ih (applyRegister (some domOrder) init a)).trans (h1.append_right as)
    simpa [List.append_assoc] using h2

/-- Folding `registerOption` calls preserves sortedness by rank (and any call
establishes it, since each call re-sorts the full list). -/
theorem foldl_applyRegister_sorted {V : Type} [DecidableEq V] (domOrder : List String)
    (acts : List (RGOption V)) (init : List (RGOption V))
    (hinit : init.Pairwise fun a z => rank domOrder a.oid ≤ rank domOrder z.oid) :
    (acts.foldl (applyRegister (some domOrder)) init).Pairwise
      (fun a z => rank domOrder a.oid ≤ rank domOrder z.oid) := by
  induction acts generalizing init with
  | nil => exact hinit
  | cons a as ih =>
    rw [List.foldl_cons]
    apply ih
    rw [applyRegister_some]
    exact sortStep_sorted domOrder init a

/-- Registration is call-order independent: two permuted mount sequences of
rendered options with distinct ids produce the same final options list. -/
theorem foldl_applyRegister_order_independent {V : Type} [DecidableEq V]
    (domOrder : List String) (acts1 acts2 : List (RGOption V))
    (hperm : acts1.Perm acts2) (hnd : (acts1.map RGOption.oid).Nodup)
    (hdom : ∀ a ∈ acts1, a.oid ∈ domOrder) :
    acts1.foldl (applyRegister (some domOrder)) [] =
      acts2.foldl (applyRegister (some domOrder)) [] := by
  have hp1 : (acts1.foldl (applyRegister (some domOrder)) []).Perm acts1 := by
    simpa using foldl_applyRegister_perm domOrder acts1 []
  have hp2 : (acts2.foldl (applyRegister (some domOrder)) []).Perm acts2 := by
    simpa using foldl_applyRegister_perm domOrder acts2 []
  have hp : (acts1.foldl (applyRegister (some domOrder)) []).Perm
      (acts2.foldl (applyRegister (some domOrder)) []) :=
    (hp1.trans hperm).trans hp2.symm
  have hs1 := foldl_applyRegister_sorted domOrder acts1 [] List.Pairwise.nil
  have hs2 := foldl_applyRegister_sorted domOrder acts2 [] List.Pairwise.nil
  have hstrict : ∀ (l : List (RGOption V)), (l.map RGOption.oid).Nodup →
      (∀ a ∈ l, a.oid ∈ domOrder) →
      l.Pairwise (fun a z => rank domOrder a.oid ≤ rank domOrder z.oid) →
      l.Pairwise (fun a z => rank domOrder a.oid < rank domOrder z.oid) := by
    intro l hlnd hldom hle
    have hne : l.Pairwise fun a z => a.oid ≠ z.oid :=
      List.pairwise_map.mp hlnd
    refine (hle.and hne).imp_of_mem fun {a b} ha hb hab => ?_
    refine lt_of_le_of_ne hab.1 fun hr => hab.2 ?_
    exact (List.indexOf_inj (hldom a ha) (hldom b hb)).mp hr
  have hnd1 : ((acts1.foldl (applyRegister (some domOrder)) []).map RGOption.oid).Nodup :=
    ((hp1.map RGOption.oid).nodup_iff).mpr hnd
  have hnd2 : ((acts2.foldl (applyRegister (some domOrder)) []).map RGOption.oid).Nodup :=
    ((hp.map RGOption.oid).nodup_iff).mp hnd1
  have hdom1 : ∀ a ∈ acts1.foldl (applyRegister (some domOrder)) [], a.oid ∈ domOrder :=
    fun a ha => hdom a (hp1.mem_iff.mp ha)
  have hdom2 : ∀ a ∈ acts2.foldl (applyRegister (some domOrder)) [], a.oid ∈ domOrder :=
    fun a ha => hdom1 _ (hp.mem_iff.mpr ha)
  have hlt1 := hstrict _ hnd1 hdom1 hs1
  have hlt2 := hstrict _ hnd2 hdom2 hs2
  haveI : IsAntisymm (RGOption V)
      (fun a z => rank domOrder a.oid < rank domOrder z.oid) :=
    ⟨fun a b h1 h2 => absurd (h1.trans h2) (lt_irrefl _)⟩
  exact List.eq_of_perm_of_sorted hp hlt1 hlt2

/-- C3: every `registerOption` call on a mounted container pushes the new ref
and re-sorts the full list by the rank of each id in the rendered document
order, so after each call the options list is sorted by live document
position; consequently, for registration sequences arriving in any order
(with distinct, rendered ids) the resulting list is the same. -/
theorem registerOption_order_spec {V : Type} [DecidableEq V] (domOrder : List String)
    (opts : List (RGOption V)) (action : RGOption V) :
    registerOption (some domOrder) opts action = .ok (sortStep domOrder opts action) ∧
    (applyRegister (some domOrder) opts action).Pairwise
      (fun a z => rank domOrder a.oid ≤ rank domOrder z.oid) ∧
    (applyRegister (some domOrder) opts action).Perm (opts ++ [action]) ∧
    (∀ acts1 acts2 : List (RGOption V), acts1.Perm acts2 →
      (acts1.map RGOption.oid).Nodup → (∀ a ∈ acts1, a.oid ∈ domOrder) →
      acts1.foldl (applyRegister (some domOrder)) [] =
        acts2.foldl (applyRegister (some domOrder)) []) := by
  refine ⟨rfl, ?_, ?_, fun acts1 acts2 h1 h2 h3 =>
    foldl_applyRegister_order_independent domOrder acts1 acts2 h1 h2 h3⟩
  · rw [applyRegister_some]
    exact sortStep_sorted domOrder opts action
  · rw [applyRegister_some]
    exact List.mergeSort_perm _ _

/-- Witness for `registerOption_order_spec` at concrete inputs: registering
two options in reverse document order produces the same list as registering
them in document order. -/
theorem registerOption_order_spec_witness :
    [(⟨"b", some 2, some 20⟩ : RGOption Nat), ⟨"a", some 1, some 10⟩].foldl
        (applyRegister (some ["a", "b"])) [] =
      [(⟨"a", some 1, some 10⟩ : RGOption Nat), ⟨"b", some 2, some 20⟩].foldl
        (applyRegister (some ["a", "b"])) [] :=
  (registerOption_order_spec ["a", "b"] [] ⟨"a", some 1, some 10⟩).2.2.2
    [⟨"b", some 2, some 20⟩, ⟨"a", some 1, some 10⟩]
    [⟨"a", some 1, some 10⟩, ⟨"b", some 2, some 20⟩]
    (List.Perm.swap _ _ _) (by decide) (by decide)

/-- Witness for `walk_amended` at concrete inputs. -/
theorem walk_amended_witness :
    walk (.node (some "radio") [.node none []]) =
      .node (some "radio") [.node none []] ∧
    walk (.node (some "group") [.node none []]) =
      .node (some "group") (walkList [.node none []]) ∧
    walk (.node none [.node none []]) =
      .node (some "none") (walkList [.node none []]) :=
  ⟨walk_amended.1 [.node none []],
   walk_amended.2.1 "group" [.node none []] (by decide),
   walk_amended.2.2.1 [.node none []]⟩

/-- A successful `focusIn` result is an element of the scanned list. -/
theorem focusIn_mem (elements : List (Option Nat)) (ids : List Nat) (backward : Bool)
    (active : Option Nat) (e : Nat)
    (h : focusIn elements ids backward active = some e) : some e ∈ elements := by
  simp only [focusIn] at h
  rcases Option.bind_eq_some.mp h with ⟨i, _, hget⟩
  by_cases hi : i < elements.length
  · rw [List.getD_eq_getElem elements none hi] at hget
    exact hget ▸ List.getElem_mem hi
  · rw [List.getD_eq_default elements none (Nat.le_of_not_lt hi)] at hget
    cases hget

/-- After a successful focus move over the option elements, the handler's
lookup of the newly focused option succeeds and yields an option whose
element is the focused one. -/
theorem focusIn_finds_option {V : Type} (options : List (RGOption V)) (ids : List Nat)
    (backward : Bool) (active : Option Nat) (e : Nat)
    (h : focusIn (options.map RGOption.element) ids backward active = some e) :
    ∃ o, findActiveOption options (some e) = some o ∧ o.element = some e := by
  have hmem : some e ∈ options.map RGOption.element :=
    focusIn_mem _ _ _ _ _ h
  rcases List.mem_map.mp hmem with ⟨o, ho, hoe⟩
  have hsome : (options.find? fun o => o.element == some e).isSome :=
    List.find?_isSome.mpr ⟨o, ho, by simp [hoe]⟩
  rcases Option.isSome_iff_exists.mp hsome with ⟨o2, ho2⟩
  refine ⟨o2, by simp [findActiveOption, ho2], ?_⟩
  have hp := List.find?_some ho2
  simpa using hp

/-- In a duplicate-free element list the scan of the last element finds the
last index. -/
theorem findIdx?_getLast_of_nodup (l : List (Option Nat)) (x : Option Nat)
    (hnd : l.Nodup) (hl : l.getLast? = some x) :
    l.findIdx? (fun e => e == x) = some (l.length - 1) := by
  induction l with
  | nil => cases hl
  | cons a as ih =>
    cases as with
    | nil =>
      rw [List.getLast?_singleton, Option.some.injEq] at hl
      subst hl
      simp [List.findIdx?_cons]
    | cons b bs =>
      rw [List.getLast?_cons_cons] at hl
      have hx : x ∈ b :: bs := List.mem_of_mem_getLast? (by rw [hl]; rfl)
      have ha : (a == x) = false := by
        rw [beq_eq_false_iff_ne]
        intro h
        exact (List.nodup_cons.mp hnd).1 (h ▸ hx)
      rw [List.findIdx?_cons, ha]
      simp only [Bool.false_eq_true, if_false, List.findIdx?_succ]
      rw [ih (List.nodup_cons.mp hnd).2 hl]
      simp [List.length_cons]

/-- Backward scan with wraparound: from the first element the scan wraps to
the last element, which is focused when eligible. -/
theorem focusIn_prev_wraps (elements : List (Option Nat)) (ids : List Nat)
    (e0 el : Nat) (hh : elements.head? = some (some e0))
    (hl : elements.getLast? = some (some el))
    (helig : eligible ids (some el) = true) :
    focusIn elements ids true (some e0) = some el := by
  cases elements with
  | nil => cases hh
  | cons a rest =>
    rw [List.head?_cons, Option.some.injEq] at hh
    subst hh
    have hgetD : (some e0 :: rest).getD rest.length none = some el := by
      rw [List.getD_eq_getElem?_getD]
      rw [List.getLast?_eq_getElem?] at hl
      simp only [List.length_cons, Nat.add_sub_cancel] at hl
      rw [hl]
      rfl
    have hidx : scanStart (some e0 :: rest) true (some e0) = 0 := by
      simp [scanStart, List.findIdx?_cons]
    rw [focusIn]
    simp only [hidx, List.length_cons, List.range_succ_eq_map, List.map_cons, if_true]
    rw [List.find?_cons]
    have hf0 : (0 + (rest.length + 1) - (0 + 1)) % (rest.length + 1) = rest.length := by
      simp [Nat.mod_eq_of_lt (Nat.lt_succ_self _)]
    have hget2 : (some e0 :: rest)[rest.length] = some el := by
      have h2 := hgetD
      rwa [List.getD_eq_getElem _ _ (by simp)] at h2
    rw [hf0, hgetD, helig]
    simp [hgetD, hget2]

/-- Forward scan with wraparound: from the last element of a duplicate-free
element list the scan wraps to the first element, which is focused when
eligible. -/
theorem focusIn_next_wraps (elements : List (Option Nat)) (ids : List Nat)
    (e0 el : Nat) (hnd : elements.Nodup)
    (hh : elements.head? = some (some e0))
    (hl : elements.getLast? = some (some el))
    (helig : eligible ids (some e0) = true) :
    focusIn elements ids false (some el) = some e0 := by
  cases elements with
  | nil => cases hh
  | cons a rest =>
    rw [List.head?_cons, Option.some.injEq] at hh
    subst hh
    have hidx : scanStart (some e0 :: rest) false (some el) = rest.length := by
      unfold scanStart
      rw [Option.some_bind, findIdx?_getLast_of_nodup (some e0 :: rest) (some el) hnd hl]
      simp [List.length_cons]
    rw [focusIn]
    simp only [hidx, List.length_cons, List.range_succ_eq_map, List.map_cons,
      Bool.false_eq_true, if_false]
    rw [List.find?_cons]
    have hf0 : (rest.length + (0 + 1)) % (rest.length + 1) = 0 := by
      simp [Nat.mod_self]
    rw [hf0]
    have hgetD0 : (some e0 :: rest).getD 0 none = some e0 := rfl
    rw [hgetD0, helig]
    simp

/-- C2: for keydown events targeted inside the mounted group container —
Left and Up share one behaviour, Right and Down the other; on a successful
backward/forward focus move the newly focused element belongs to a registered
option and exactly one change request carrying that option's current value is
issued; when no eligible candidate exists nothing changes and no error is
raised (the move is silent); Space requests change with the value of the
option holding input focus and does not move focus; all handled keys call
`preventDefault` and `stopPropagation`; any other key changes nothing;
backward wraps from the first option to the last and forward wraps from the
last to the first. -/
theorem handleKeydown_spec {V : Type} [DecidableEq V] (st : KeyState V)
    (hm : st.containerMounted = true) (ht : st.targetInside = true) :
    handleKeydown st .arrowUp = handleKeydown st .arrowLeft ∧
    handleKeydown st .arrowDown = handleKeydown st .arrowRight ∧
    (∀ e : Nat,
      focusIn (st.options.map RGOption.element) st.focusableIds true
          st.activeElement = some e →
      ∃ o, findActiveOption st.options (some e) = some o ∧ o.element = some e ∧
        handleKeydown st .arrowLeft = ⟨some e, [o.value], true, true⟩) ∧
    (focusIn (st.options.map RGOption.element) st.focusableIds true
        st.activeElement = none →
      handleKeydown st .arrowLeft = ⟨st.activeElement, [], true, true⟩) ∧
    (∀ e : Nat,
      focusIn (st.options.map RGOption.element) st.focusableIds false
          st.activeElement = some e →
      ∃ o, findActiveOption st.options (some e) = some o ∧ o.element = some e ∧
        handleKeydown st .arrowRight = ⟨some e, [o.value], true, true⟩) ∧
    (focusIn (st.options.map RGOption.element) st.focusableIds false
        st.activeElement = none →
      handleKeydown st .arrowRight = ⟨st.activeElement, [], true, true⟩) ∧
    (∀ o, findActiveOption st.options st.activeElement = some o →
      handleKeydown st .space = ⟨st.activeElement, [o.value], true, true⟩) ∧
    (findActiveOption st.options st.activeElement = none →
      handleKeydown st .space = ⟨st.activeElement, [], true, true⟩) ∧
    handleKeydown st .other = ⟨st.activeElement, [], false, false⟩ ∧
    (∀ o0 e0 ol el, st.options.head? = some o0 → o0.element = some e0 →
      st.activeElement = some e0 → st.options.getLast? = some ol →
      ol.element = some el → eligible st.focusableIds (some el) = true →
      (handleKeydown st .arrowLeft).activeElement = some el) ∧
    (∀ o0 e0 ol el, (st.options.map RGOption.element).Nodup →
      st.options.getLast? = some ol → ol.element = some el →
      st.activeElement = some el → st.options.head? = some o0 →
      o0.element = some e0 → eligible st.focusableIds (some e0) = true →
      (handleKeydown st .arrowRight).activeElement = some e0) := by
  refine ⟨by simp [handleKeydown, hm, ht], by simp [handleKeydown, hm, ht],
    fun e hfoc => ?_, fun hfoc => ?_, fun e hfoc => ?_, fun hfoc => ?_,
    fun o ho => ?_, fun ho => ?_, by simp [handleKeydown, hm, ht],
    fun o0 e0 ol el hh he0 hact hl hel helig => ?_,
    fun o0 e0 ol el hnd hl hel hact hh he0 helig => ?_⟩
  · rcases focusIn_finds_option st.options st.focusableIds true st.activeElement e
      hfoc with ⟨o, ho, hoe⟩
    exact ⟨o, ho, hoe, by simp [handleKeydown, hm, ht, arrowResult, hfoc, ho]⟩
  · simp [handleKeydown, hm, ht, arrowResult, hfoc]
  · rcases focusIn_finds_option st.options st.focusableIds false st.activeElement e
      hfoc with ⟨o, ho, hoe⟩
    exact ⟨o, ho, hoe, by simp [handleKeydown, hm, ht, arrowResult, hfoc, ho]⟩
  · simp [handleKeydown, hm, ht, arrowResult, hfoc]
  · simp [handleKeydown, hm, ht, ho]
  · simp [handleKeydown, hm, ht, ho]
  · have hfoc : focusIn (st.options.map RGOption.element) st.focusableIds true
        st.activeElement = some el := by
      rw [hact]
      exact focusIn_prev_wraps _ _ e0 el
        (by rw [List.head?_map, hh]; simp [he0])
        (by rw [List.getLast?_map, hl]; simp [hel]) helig
    simp [handleKeydown, hm, ht, arrowResult, hfoc]
  · have hfoc : focusIn (st.options.map RGOption.element) st.focusableIds false
        st.activeElement = some e0 := by
      rw [hact]
      exact focusIn_next_wraps _ _ e0 el hnd
        (by rw [List.head?_map, hh]; simp [he0])
        (by rw [List.getLast?_map, hl]; simp [hel]) helig
    simp [handleKeydown, hm, ht, arrowResult, hfoc]

/-- Witness for `handleKeydown_spec` at a concrete state: two registered
options with elements 1 and 2, element 1 focused. Space requests change with
the focused option's value without moving focus; Left from the first option
wraps focus to the last. -/
theorem handleKeydown_spec_witness :
    handleKeydown (⟨[⟨"a", some 1, some 10⟩, ⟨"b", some 2, some 20⟩], some 1,
        [1, 2], true, true⟩ : KeyState Nat) .space =
      ⟨some 1, [some 10], true, true⟩ ∧
    (handleKeydown (⟨[⟨"a", some 1, some 10⟩, ⟨"b", some 2, some 20⟩], some 1,
        [1, 2], true, true⟩ : KeyState Nat) .arrowLeft).activeElement = some 2 :=
  ⟨(handleKeydown_spec _ rfl rfl).2.2.2.2.2.2.1 ⟨"a", some 1, some 10⟩ (by decide),
   (handleKeydown_spec _ rfl rfl).2.2.2.2.2.2.2.2.2.1 ⟨"a", some 1, some 10⟩ 1
     ⟨"b", some 2, some 20⟩ 2 rfl rfl rfl (by decide) rfl (by decide)⟩

end RadioGroup
